import Mathlib

/-!
Verification of the ectop terminal dashboard against its specification.

The repository is a Python TUI for operating an ecFlow workflow server.
This file gives a shallow embedding of the pure logic of the modules the
claims concern — the client wrapper (`src/ectop/client.py`), the status
bar (`widgets/statusbar.py`), the content viewer (`widgets/content.py`),
the sidebar tree (`widgets/sidebar.py`), the Variable Tweaker modal
(`widgets/modals/variables.py`) and the Why inspector's expression parser
(`widgets/modals/why.py`) — and proves or refutes the specification's
statements about them.  Strings are modelled as Lean `String`s / lists of
`Char`s (Python `str` indexing and slicing is per code point, as is
Lean's `List Char`).
-/

namespace Ectop

/-- Does list `p` occur at the head of `l`?  (Python `str.startswith`.) -/
def listStarts : List Char → List Char → Bool
  | [], _ => true
  | _ :: _, [] => false
  | p :: ps, c :: cs => p == c && listStarts ps cs

/-- Does list `p` occur at the end of `l`?  (Python `str.endswith`.) -/
def listEnds (p l : List Char) : Bool :=
  listStarts p.reverse l.reverse

/-- Does `needle` occur contiguously anywhere inside `hay`?
(Python's `needle in hay` on strings.) -/
def hasSub (needle hay : List Char) : Bool :=
  if listStarts needle hay then true
  else
    match hay with
    | [] => false
    | _ :: rest => hasSub needle rest

/-- A list is a leading segment of itself followed by anything. -/
theorem listStarts_append_self (p rest : List Char) :
    listStarts p (p ++ rest) = true := by
  induction p with
  | nil => rfl
  | cons c cs ih => simp [listStarts, ih]

/-- A needle that is a leading segment of the haystack is a sub-list of it. -/
theorem hasSub_of_listStarts (n h : List Char) (hs : listStarts n h = true) :
    hasSub n h = true := by
  cases h <;> simp [hasSub, hs]

/-- Sub-list occurrence survives prepending further text. -/
theorem hasSub_append_left (pre n h : List Char) (hs : hasSub n h = true) :
    hasSub n (pre ++ h) = true := by
  induction pre with
  | nil => simpa using hs
  | cons c cs ih =>
    rw [List.cons_append]
    rw [hasSub]
    split
    · rfl
    · exact ih

/-- `(s ++ t).data` unfolds to the concatenation of the two data lists. -/
theorem string_data_append (s t : String) : (s ++ t).data = s.data ++ t.data := rfl

/-! ## Constants (`src/ectop/constants.py`) -/

def ICON_MET : String := "✅"

def ICON_NOT_MET : String := "❌"

def ICON_UNKNOWN : String := "❓"

def ICON_NOTE : String := "📝"

def EXPR_OR_LABEL : String := "OR (Any must be true)"

def EXPR_AND_LABEL : String := "AND (All must be true)"

def INHERITED_VAR_PREFIX : String := "inh_"

def TREE_FILTERS : List (Option String) :=
  [none, some "aborted", some "active", some "queued", some "submitted", some "suspended"]

/-- Modelled from the spec: the dedicated "halted" theme color used by the
status bar.  `widgets/statusbar.py` imports `COLOR_STATUS_HALTED` from
`ectop.constants`, but `src/ectop/constants.py` does not define it; the
spec only calls it "the dedicated halted color" without giving a value,
so an arbitrary distinct value stands in here.  No theorem below depends
on the concrete value. -/
def COLOR_STATUS_HALTED : String := "orange"

/-! ## Status bar (`src/ectop/widgets/statusbar.py`, `StatusBar.render`)

`render` computes the style of the status segment:

    status_color = "red"
    if self.status == "RUNNING":
        status_color = "green"
    elif self.status == "HALTED":
        status_color = COLOR_STATUS_HALTED
    elif "Connected" in self.status:
        status_color = "green"
-/

/-- The color chosen for the status text by `StatusBar.render`. -/
def statusColor (status : String) : String :=
  if status = "RUNNING" then "green"
  else if status = "HALTED" then COLOR_STATUS_HALTED
  else if hasSub "Connected".data status.data then "green"
  else "red"

/-- The render rule as the specification words it: green when the status
equals `RUNNING` or contains the substring `Connected`; the dedicated
halted color when it equals `HALTED`; red otherwise. -/
def specStatusColor (status : String) : String :=
  if status = "RUNNING" ∨ hasSub "Connected".data status.data = true then "green"
  else if status = "HALTED" then COLOR_STATUS_HALTED
  else "red"

/-- C3.  For every status string the status bar colors the status text
exactly as the specification's rule says: green iff it equals `RUNNING`
or contains `"Connected"`, the dedicated halted color iff it equals
`HALTED`, red in every other case; in particular `"CRITICAL ERROR"`
renders red. -/
theorem statusbar_color_rule :
    (∀ status : String, statusColor status = specStatusColor status) ∧
    statusColor "CRITICAL ERROR" = "red" ∧
    statusColor "RUNNING" = "green" ∧
    statusColor "HALTED" = COLOR_STATUS_HALTED ∧
    statusColor "Server Connected" = "green" := by
  refine ⟨?_, by decide, by decide, by decide, by decide⟩
  intro status
  unfold statusColor specStatusColor
  by_cases hr : status = "RUNNING"
  · simp [hr]
  · by_cases hh : status = "HALTED"
    · subst hh; decide
    · by_cases hc : hasSub "Connected".data status.data = true
      · simp [hr, hh, hc]
      · simp [hr, hh, hc]

/-! ## Content viewer (`src/ectop/widgets/content.py`, `MainContent.update_log`)

    if not append:
        widget.clear()
        self.last_log_size = len(content)
        widget.write(content)
    else:
        new_content = content[self.last_log_size :]
        if new_content:
            widget.write(new_content)
            self.last_log_size = len(content)

The widget interaction is modelled as the list of clear/write events the
call issues; the mutable `last_log_size` field is threaded explicitly.
-/

inductive LogEvent where
  | clear : LogEvent
  | write (text : List Char) : LogEvent
deriving DecidableEq

/-- `MainContent.update_log`: given the recorded `last_log_size` and the
new full content, returns the new marker and the widget events issued. -/
def update_log (last_log_size : Nat) (content : List Char) (append : Bool) :
    Nat × List LogEvent :=
  if !append then
    (content.length, [LogEvent.clear, LogEvent.write content])
  else
    let new_content := content.drop last_log_size
    if new_content ≠ [] then
      (content.length, [LogEvent.write new_content])
    else
      (last_log_size, [])

/-- C7.  A non-append call clears, writes the full content and records its
length; an append call whose content extends the recorded marker writes
exactly the new suffix (nothing when there is none) and leaves the marker
at the full new length; concretely, `update_log "initial content"` then
`update_log "initial content added more" (append := true)` writes exactly
`" added more"` once and sets the marker to 26, and a further append call
with unchanged content writes nothing. -/
theorem update_log_delta :
    (∀ (last : Nat) (c : List Char),
        update_log last c false = (c.length, [LogEvent.clear, LogEvent.write c])) ∧
    (∀ (last : Nat) (c : List Char), last ≤ c.length →
        (update_log last c true).1 = c.length ∧
        (update_log last c true).2 =
          (if c.length = last then [] else [LogEvent.write (c.drop last)])) ∧
    update_log 0 "initial content".data false =
      (15, [LogEvent.clear, LogEvent.write "initial content".data]) ∧
    update_log 15 "initial content added more".data true =
      (26, [LogEvent.write " added more".data]) ∧
    update_log 26 "initial content added more".data true = (26, []) := by
  refine ⟨?_, ?_, by decide, by decide, by decide⟩
  · intro last c; rfl
  · intro last c hle
    unfold update_log
    by_cases hnil : c.drop last = []
    · have hlen : c.length ≤ last := List.drop_eq_nil_iff.mp hnil
      have heq : c.length = last := Nat.le_antisymm hlen hle
      simp [hnil, heq]
    · have hlen : ¬ c.length ≤ last := fun h => hnil (List.drop_eq_nil_iff.mpr h)
      have hne : c.length ≠ last := fun h => hlen (Nat.le_of_eq h)
      simp [hnil, hne]

/-- Witness for C7: the append-mode conjunct applied at the concrete call
`update_log 15 "initial content added more" true`. -/
theorem update_log_delta_witness :
    (update_log 15 "initial content added more".data true).1 =
      ("initial content added more".data).length ∧
    (update_log 15 "initial content added more".data true).2 =
      (if ("initial content added more".data).length = 15 then []
       else [LogEvent.write ("initial content added more".data.drop 15)]) :=
  update_log_delta.2.1 15 "initial content added more".data (by decide)

/-- C10.  In append mode the recorded marker never decreases: when the new
content's length is at most the recorded marker, nothing is written and
the marker is unchanged; and any call that lowers the marker is a
non-append call. -/
theorem update_log_marker_monotone :
    (∀ (last : Nat) (c : List Char), c.length ≤ last →
        update_log last c true = (last, [])) ∧
    (∀ (last : Nat) (c : List Char) (append : Bool),
        (update_log last c append).1 < last → append = false) := by
  constructor
  · intro last c hle
    have hnil : c.drop last = [] := List.drop_eq_nil_iff.mpr hle
    simp [update_log, hnil]
  · intro last c append hlt
    cases append with
    | false => rfl
    | true =>
      exfalso
      unfold update_log at hlt
      by_cases hnil : c.drop last = []
      · simp [hnil] at hlt
      · have hlen : ¬ c.length ≤ last := fun h => hnil (List.drop_eq_nil_iff.mpr h)
        simp [hnil] at hlt
        exact hlen (Nat.le_of_lt hlt)

/-- Witness for C10: a truncated log (`"short"`, 5 chars) arriving in
append mode with the marker at 26 writes nothing and keeps the marker. -/
theorem update_log_marker_monotone_witness :
    update_log 26 "short".data true = (26, []) :=
  update_log_marker_monotone.1 26 "short".data (by decide)

/-- `p` is a leading segment of `p ++ rest` even after the haystack grows. -/
theorem listStarts_append_of (p q rest : List Char) (h : listStarts p q = true) :
    listStarts p (q ++ rest) = true := by
  induction p generalizing q with
  | nil => rfl
  | cons c cs ih =>
    cases q with
    | nil => simp [listStarts] at h
    | cons d ds =>
      rw [listStarts] at h
      rw [List.cons_append, listStarts]
      simp only [Bool.and_eq_true] at h ⊢
      exact ⟨h.1, ih ds h.2⟩

/-- Every list is a leading segment of itself. -/
theorem listStarts_self (p : List Char) : listStarts p p = true := by
  simpa using listStarts_append_self p []

/-- A list occurs as a sub-list at the end of any extension on the left. -/
theorem hasSub_append_right_self (pre m : List Char) :
    hasSub m (pre ++ m) = true :=
  hasSub_append_left pre m m (hasSub_of_listStarts m m (listStarts_self m))

/-! ## Client wrapper (`src/ectop/client.py`, class `EcflowClient`)

Every operation wraps the underlying `ecflow.Client` call in
`try/except RuntimeError`, re-raising a `RuntimeError` whose message
embeds the original one.  Each wrapper method is modelled as a function
of the underlying call's outcome (`Except String α`: `error m` is the
underlying `RuntimeError` with message `m`). -/

namespace EcflowClient

def ping (host : String) (port : Nat) (underlying : Except String Unit) :
    Except String Unit :=
  match underlying with
  | Except.ok u => Except.ok u
  | Except.error e =>
      Except.error ("Failed to ping ecFlow server at " ++ host ++ ":" ++
        toString port ++ ": " ++ e)

def sync_local (underlying : Except String Unit) : Except String Unit :=
  match underlying with
  | Except.ok u => Except.ok u
  | Except.error e => Except.error ("Failed to sync with ecFlow server: " ++ e)

def get_defs {α : Type} (underlying : Except String α) : Except String α :=
  match underlying with
  | Except.ok d => Except.ok d
  | Except.error e => Except.error ("Failed to get definitions from client: " ++ e)

def file (path file_type : String) (underlying : Except String String) :
    Except String String :=
  match underlying with
  | Except.ok content => Except.ok content
  | Except.error e =>
      Except.error ("Failed to retrieve " ++ file_type ++ " for " ++ path ++ ": " ++ e)

def suspend (path : String) (underlying : Except String Unit) : Except String Unit :=
  match underlying with
  | Except.ok u => Except.ok u
  | Except.error e => Except.error ("Failed to suspend " ++ path ++ ": " ++ e)

def resume (path : String) (underlying : Except String Unit) : Except String Unit :=
  match underlying with
  | Except.ok u => Except.ok u
  | Except.error e => Except.error ("Failed to resume " ++ path ++ ": " ++ e)

def kill (path : String) (underlying : Except String Unit) : Except String Unit :=
  match underlying with
  | Except.ok u => Except.ok u
  | Except.error e => Except.error ("Failed to kill " ++ path ++ ": " ++ e)

def force_complete (path : String) (underlying : Except String Unit) :
    Except String Unit :=
  match underlying with
  | Except.ok u => Except.ok u
  | Except.error e => Except.error ("Failed to force complete " ++ path ++ ": " ++ e)

def alter (path alter_type name value : String) (underlying : Except String Unit) :
    Except String Unit :=
  match underlying with
  | Except.ok u => Except.ok u
  | Except.error e =>
      Except.error ("Failed to alter " ++ path ++ " (" ++ alter_type ++ " " ++
        name ++ "=" ++ value ++ "): " ++ e)

def requeue (path : String) (underlying : Except String Unit) : Except String Unit :=
  match underlying with
  | Except.ok u => Except.ok u
  | Except.error e => Except.error ("Failed to requeue " ++ path ++ ": " ++ e)

/-- The method names the `EcflowClient` class actually defines, in source
order (`src/ectop/client.py`). -/
def methods : List String :=
  ["__init__", "ping", "sync_local", "get_defs", "file", "suspend", "resume",
   "kill", "force_complete", "alter", "requeue"]

end EcflowClient

/-- A phrase that leads the front part of a concatenation leads the whole. -/
theorem starts_head (phrase mid m : String)
    (h : listStarts phrase.data mid.data = true) :
    listStarts phrase.data (mid ++ m).data = true := by
  rw [string_data_append]
  exact listStarts_append_of _ _ _ h

/-- The final piece of a concatenation occurs inside the whole string. -/
theorem hasSub_tail (mid m : String) : hasSub m.data (mid ++ m).data = true := by
  rw [string_data_append]
  exact hasSub_append_right_self _ _

/-- C2.  Every wrapper operation passes a successful underlying result
through unchanged, and on an underlying failure with message `m` raises an
error whose message is exactly the source's
`"Failed to <operation-description> <target>: <original message>"` format:
it starts with the operation's `"Failed to ..."` phrase (in particular
`"Failed to ping"` for ping) and contains the original message `m`. -/
theorem client_error_translation :
    (∀ (host : String) (port : Nat) (m : String),
      EcflowClient.ping host port (Except.ok ()) = Except.ok () ∧
      EcflowClient.ping host port (Except.error m) =
        Except.error ("Failed to ping ecFlow server at " ++ host ++ ":" ++
          toString port ++ ": " ++ m) ∧
      listStarts "Failed to ping".data
        ("Failed to ping ecFlow server at " ++ host ++ ":" ++ toString port ++
          ": " ++ m).data = true ∧
      hasSub m.data
        ("Failed to ping ecFlow server at " ++ host ++ ":" ++ toString port ++
          ": " ++ m).data = true) ∧
    (∀ m : String,
      EcflowClient.sync_local (Except.ok ()) = Except.ok () ∧
      EcflowClient.sync_local (Except.error m) =
        Except.error ("Failed to sync with ecFlow server: " ++ m) ∧
      listStarts "Failed to sync".data
        ("Failed to sync with ecFlow server: " ++ m).data = true ∧
      hasSub m.data ("Failed to sync with ecFlow server: " ++ m).data = true) ∧
    (∀ (d m : String),
      EcflowClient.get_defs (Except.ok d) = Except.ok d ∧
      EcflowClient.get_defs (α := String) (Except.error m) =
        Except.error ("Failed to get definitions from client: " ++ m) ∧
      listStarts "Failed to get definitions".data
        ("Failed to get definitions from client: " ++ m).data = true ∧
      hasSub m.data ("Failed to get definitions from client: " ++ m).data = true) ∧
    (∀ (path file_type content m : String),
      EcflowClient.file path file_type (Except.ok content) = Except.ok content ∧
      EcflowClient.file path file_type (Except.error m) =
        Except.error ("Failed to retrieve " ++ file_type ++ " for " ++ path ++
          ": " ++ m) ∧
      listStarts "Failed to retrieve".data
        ("Failed to retrieve " ++ file_type ++ " for " ++ path ++ ": " ++ m).data
          = true ∧
      hasSub m.data
        ("Failed to retrieve " ++ file_type ++ " for " ++ path ++ ": " ++ m).data
          = true) ∧
    (∀ (path m : String),
      EcflowClient.suspend path (Except.ok ()) = Except.ok () ∧
      EcflowClient.suspend path (Except.error m) =
        Except.error ("Failed to suspend " ++ path ++ ": " ++ m) ∧
      listStarts "Failed to suspend".data
        ("Failed to suspend " ++ path ++ ": " ++ m).data = true ∧
      hasSub m.data ("Failed to suspend " ++ path ++ ": " ++ m).data = true) ∧
    (∀ (path m : String),
      EcflowClient.resume path (Except.ok ()) = Except.ok () ∧
      EcflowClient.resume path (Except.error m) =
        Except.error ("Failed to resume " ++ path ++ ": " ++ m) ∧
      listStarts "Failed to resume".data
        ("Failed to resume " ++ path ++ ": " ++ m).data = true ∧
      hasSub m.data ("Failed to resume " ++ path ++ ": " ++ m).data = true) ∧
    (∀ (path m : String),
      EcflowClient.kill path (Except.ok ()) = Except.ok () ∧
      EcflowClient.kill path (Except.error m) =
        Except.error ("Failed to kill " ++ path ++ ": " ++ m) ∧
      listStarts "Failed to kill".data
        ("Failed to kill " ++ path ++ ": " ++ m).data = true ∧
      hasSub m.data ("Failed to kill " ++ path ++ ": " ++ m).data = true) ∧
    (∀ (path m : String),
      EcflowClient.force_complete path (Except.ok ()) = Except.ok () ∧
      EcflowClient.force_complete path (Except.error m) =
        Except.error ("Failed to force complete " ++ path ++ ": " ++ m) ∧
      listStarts "Failed to force complete".data
        ("Failed to force complete " ++ path ++ ": " ++ m).data = true ∧
      hasSub m.data ("Failed to force complete " ++ path ++ ": " ++ m).data = true) ∧
    (∀ (path alter_type name value m : String),
      EcflowClient.alter path alter_type name value (Except.ok ()) = Except.ok () ∧
      EcflowClient.alter path alter_type name value (Except.error m) =
        Except.error ("Failed to alter " ++ path ++ " (" ++ alter_type ++ " " ++
          name ++ "=" ++ value ++ "): " ++ m) ∧
      listStarts "Failed to alter".data
        ("Failed to alter " ++ path ++ " (" ++ alter_type ++ " " ++ name ++ "=" ++
          value ++ "): " ++ m).data = true ∧
      hasSub m.data
        ("Failed to alter " ++ path ++ " (" ++ alter_type ++ " " ++ name ++ "=" ++
          value ++ "): " ++ m).data = true) ∧
    (∀ (path m : String),
      EcflowClient.requeue path (Except.ok ()) = Except.ok () ∧
      EcflowClient.requeue path (Except.error m) =
        Except.error ("Failed to requeue " ++ path ++ ": " ++ m) ∧
      listStarts "Failed to requeue".data
        ("Failed to requeue " ++ path ++ ": " ++ m).data = true ∧
      hasSub m.data ("Failed to requeue " ++ path ++ ": " ++ m).data = true) := by
  refine ⟨?_, ?_, ?_, ?_, ?_, ?_, ?_, ?_, ?_, ?_⟩
  · intro host port m
    refine ⟨rfl, rfl, ?_, hasSub_tail _ _⟩
    repeat apply starts_head
    decide
  · intro m
    refine ⟨rfl, rfl, ?_, hasSub_tail _ _⟩
    repeat apply starts_head
    decide
  · intro d m
    refine ⟨rfl, rfl, ?_, hasSub_tail _ _⟩
    repeat apply starts_head
    decide
  · intro path file_type content m
    refine ⟨rfl, rfl, ?_, hasSub_tail _ _⟩
    repeat apply starts_head
    decide
  · intro path m
    refine ⟨rfl, rfl, ?_, hasSub_tail _ _⟩
    repeat apply starts_head
    decide
  · intro path m
    refine ⟨rfl, rfl, ?_, hasSub_tail _ _⟩
    repeat apply starts_head
    decide
  · intro path m
    refine ⟨rfl, rfl, ?_, hasSub_tail _ _⟩
    repeat apply starts_head
    decide
  · intro path m
    refine ⟨rfl, rfl, ?_, hasSub_tail _ _⟩
    repeat apply starts_head
    decide
  · intro path alter_type name value m
    refine ⟨rfl, rfl, ?_, hasSub_tail _ _⟩
    repeat apply starts_head
    decide
  · intro path m
    refine ⟨rfl, rfl, ?_, hasSub_tail _ _⟩
    repeat apply starts_head
    decide

/-! ## Server-wide commands (C1)

`src/ectop/app.py` binds `S`/`H` to `action_restart_server` /
`action_halt_server`, which call `self.ecflow_client.restart_server()` and
`self.ecflow_client.halt_server()`; the tests also expect a
`server_version()` wrapper method.  Python resolves such a call by
attribute lookup on the `EcflowClient` instance, raising `AttributeError`
when the class does not define the method; the `except Exception` handler
in the actions then shows a generic error notification. -/

inductive PyError where
  | runtimeError (msg : String) : PyError
  | attributeError (msg : String) : PyError
deriving DecidableEq

/-- Python attribute lookup of a method on an object of class `className`
whose class defines exactly `methodNames`. -/
def getattrOn (methodNames : List String) (className attr : String) :
    Except PyError String :=
  if attr ∈ methodNames then Except.ok attr
  else
    Except.error (PyError.attributeError
      ("'" ++ className ++ "' object has no attribute '" ++ attr ++ "'"))

/-- `Ectop.action_restart_server` (`src/ectop/app.py`): the notification it
produces, as a function of the methods the wrapper class defines. -/
def action_restart_server (methodNames : List String) : String :=
  match getattrOn methodNames "EcflowClient" "restart_server" with
  | Except.ok _ => "Server Started (RUNNING)"
  | Except.error (PyError.attributeError m) => "Restart Error: " ++ m
  | Except.error (PyError.runtimeError m) => "Restart Error: " ++ m

/-- `Ectop.action_halt_server` (`src/ectop/app.py`). -/
def action_halt_server (methodNames : List String) : String :=
  match getattrOn methodNames "EcflowClient" "halt_server" with
  | Except.ok _ => "Server Halted (HALT)"
  | Except.error (PyError.attributeError m) => "Halt Error: " ++ m
  | Except.error (PyError.runtimeError m) => "Halt Error: " ++ m

/-- C1.  `EcflowClient` defines none of `restart_server`, `halt_server`,
`server_version`, so the server-wide actions hit an attribute-lookup
failure (surfaced as a generic "Restart Error"/"Halt Error" notification)
instead of issuing the command and translating failures into the
CommandError-kind wrapper error the specification describes. -/
theorem server_commands_missing :
    "restart_server" ∉ EcflowClient.methods ∧
    "halt_server" ∉ EcflowClient.methods ∧
    "server_version" ∉ EcflowClient.methods ∧
    getattrOn EcflowClient.methods "EcflowClient" "restart_server" =
      Except.error (PyError.attributeError
        "'EcflowClient' object has no attribute 'restart_server'") ∧
    action_restart_server EcflowClient.methods =
      "Restart Error: 'EcflowClient' object has no attribute 'restart_server'" ∧
    action_halt_server EcflowClient.methods =
      "Halt Error: 'EcflowClient' object has no attribute 'halt_server'" := by
  refine ⟨by decide, by decide, by decide, rfl, rfl, rfl⟩

/-! ## Sidebar tree (`src/ectop/widgets/sidebar.py`, class `SuiteTree`)

The snapshot node hierarchy is modelled as a rose tree: every ecFlow node
has a name, a state string (`str(node.get_state())`) and a list of
children (empty for tasks, which have no `nodes` attribute, so the
`any(...)` in `_should_show_node` is over the empty sequence for them). -/

inductive ENode where
  | node (name : String) (state : String) (children : List ENode)

def ENode.state : ENode → String
  | ENode.node _ s _ => s

def ENode.children : ENode → List ENode
  | ENode.node _ _ cs => cs

/-! `SuiteTree._should_show_node`: visible when no filter is active, the
node's own state matches, or some child's subtree matches (recursively). -/

mutual

def shouldShowNode (filter : Option String) : ENode → Bool
  | ENode.node _ s cs =>
    match filter with
    | none => true
    | some f => s == f || shouldShowAnyChild filter cs

def shouldShowAnyChild (filter : Option String) : List ENode → Bool
  | [] => false
  | c :: cs => shouldShowNode filter c || shouldShowAnyChild filter cs

end

/-! All nodes of a subtree (the root included) / of a forest. -/

mutual

def subtreeNodes : ENode → List ENode
  | ENode.node nm s cs => ENode.node nm s cs :: subtreeForest cs

def subtreeForest : List ENode → List ENode
  | [] => []
  | c :: cs => subtreeNodes c ++ subtreeForest cs

end

/-- The strict descendants of a node. -/
def ENode.descendants (n : ENode) : List ENode :=
  subtreeForest n.children

/-- Does node `d`'s own state equal the filter state `f`? -/
def stateMatches (f : String) (d : ENode) : Bool :=
  d.state == f

mutual

theorem shouldShow_eq_subtree (f : String) (n : ENode) :
    shouldShowNode (some f) n =
      (n.state == f || (subtreeForest n.children).any (stateMatches f)) := by
  cases n with
  | node nm s cs =>
    simp only [shouldShowNode, ENode.state, ENode.children]
    rw [shouldShowAny_eq_subtree f cs]

theorem shouldShowAny_eq_subtree (f : String) (cs : List ENode) :
    shouldShowAnyChild (some f) cs =
      (subtreeForest cs).any (stateMatches f) := by
  cases cs with
  | nil => rfl
  | cons c cs =>
    simp only [shouldShowAnyChild, subtreeForest]
    rw [shouldShow_eq_subtree f c, shouldShowAny_eq_subtree f cs]
    cases c with
    | node nm s cs2 =>
      simp [subtreeNodes, stateMatches, ENode.state, ENode.children,
        List.any_append, List.any_cons, Bool.or_assoc]

end

/-- `SuiteTree.action_cycle_filter`'s filter advance:
`(self.filters.index(self.current_filter) + 1) % len(self.filters)`. -/
def cycleFilter (current : Option String) : Option String :=
  (TREE_FILTERS.getD ((TREE_FILTERS.indexOf current + 1) % TREE_FILTERS.length)
    none)

/-- The sidebar state the filter action touches: the last snapshot
(`self.defs`, here the list of suites) and the active filter. -/
structure SidebarState where
  defs : Option (List ENode)
  current_filter : Option String

/-- `action_cycle_filter` advances the filter and rebuilds the tree from
the same `self.defs` snapshot (`update_tree` is called with `self.defs`,
leaving the snapshot untouched). -/
def cycleFilterState (st : SidebarState) : SidebarState :=
  { st with current_filter := cycleFilter st.current_filter }

/-- C9.  A node is visible iff the filter is off, its own state equals the
filter, or some descendant's state does (so a container with one matching
descendant stays visible and one with none is hidden), and cycling the
filter advances through `[None, aborted, active, queued, submitted,
suspended]` with wrap-around without altering the snapshot. -/
theorem filter_visibility :
    (∀ n : ENode, shouldShowNode none n = true) ∧
    (∀ (f : String) (n : ENode),
        shouldShowNode (some f) n =
          (n.state == f || n.descendants.any (stateMatches f))) ∧
    shouldShowNode (some "aborted")
      (ENode.node "fam" "complete" [ENode.node "t" "aborted" []]) = true ∧
    shouldShowNode (some "aborted")
      (ENode.node "fam" "complete" [ENode.node "t" "queued" []]) = false ∧
    cycleFilter none = some "aborted" ∧
    cycleFilter (some "aborted") = some "active" ∧
    cycleFilter (some "active") = some "queued" ∧
    cycleFilter (some "queued") = some "submitted" ∧
    cycleFilter (some "submitted") = some "suspended" ∧
    cycleFilter (some "suspended") = none ∧
    (∀ st : SidebarState, (cycleFilterState st).defs = st.defs) := by
  refine ⟨?_, ?_, by decide, by decide, by decide, by decide, by decide,
    by decide, by decide, by decide, fun st => rfl⟩
  · intro n; cases n; rfl
  · intro f n; exact shouldShow_eq_subtree f n

/-! ## Sidebar search (`SuiteTree._find_and_select_logic`)

    query = query.lower()
    ...
    start_index = all_paths.index(current_path) + 1   (when the cursor's
      path is non-empty and present, else 0)
    for i in range(len(all_paths)):
        path = all_paths[(start_index + i) % len(all_paths)]
        if query in path.lower(): found_path = path; break
    ... select found_path, else notify "No match found for '{query}'"

Python `str.lower` agrees with `Char.toLower` on the ASCII strings node
paths are made of. -/

def lowerList (cs : List Char) : List Char :=
  cs.map Char.toLower

inductive SearchResult where
  | select (path : String)
  | notifyNoMatch (msg : String)
deriving DecidableEq

/-- The `for i in range(...)` scan: `i` is the loop counter, `r` the
remaining iterations. -/
def scanAux (all_paths : List String) (qlow : List Char) (start : Nat) :
    Nat → Nat → Option String
  | _, 0 => none
  | i, r + 1 =>
    let p := all_paths.getD ((start + i) % all_paths.length) ""
    if hasSub qlow (lowerList p.data) then some p
    else scanAux all_paths qlow start (i + 1) r

def findAndSelectLogic (all_paths : List String) (cursor : Option String)
    (query : String) : SearchResult :=
  let qlow := lowerList query.data
  let start :=
    match cursor with
    | none => 0
    | some cp => if cp ≠ "" ∧ cp ∈ all_paths then all_paths.indexOf cp + 1 else 0
  match scanAux all_paths qlow start 0 all_paths.length with
  | some p => SearchResult.select p
  | none =>
      SearchResult.notifyNoMatch
        ("No match found for '" ++ String.mk (lowerList query.data) ++ "'")

/-- A successful scan returns a cached path whose lowering contains the
lowered query. -/
theorem scanAux_some (all_paths : List String) (qlow : List Char) (start : Nat)
    (hlen : 0 < all_paths.length) :
    ∀ (r i : Nat) (p : String), scanAux all_paths qlow start i r = some p →
      p ∈ all_paths ∧ hasSub qlow (lowerList p.data) = true := by
  intro r
  induction r with
  | zero => intro i p h; simp [scanAux] at h
  | succ r ih =>
    intro i p h
    rw [scanAux] at h
    by_cases hm :
        hasSub qlow
          (lowerList (all_paths.getD ((start + i) % all_paths.length) "").data)
          = true
    · simp only [hm, if_true] at h
      cases h
      have hidx : (start + i) % all_paths.length < all_paths.length :=
        Nat.mod_lt _ hlen
      refine ⟨?_, hm⟩
      rw [List.getD_eq_getElem?_getD, List.getElem?_eq_getElem hidx]
      exact List.getElem_mem hidx
    · simp only [hm, if_false] at h
      exact ih (i + 1) p h

/-- A scan that comes back empty matched none of the examined slots. -/
theorem scanAux_none (all_paths : List String) (qlow : List Char) (start : Nat) :
    ∀ (r i : Nat), scanAux all_paths qlow start i r = none →
      ∀ j, j < r →
        hasSub qlow
          (lowerList
            (all_paths.getD ((start + i + j) % all_paths.length) "").data)
          = false := by
  intro r
  induction r with
  | zero => intro i h j hj; omega
  | succ r ih =>
    intro i h j hj
    simp only [scanAux] at h
    by_cases hm :
        hasSub qlow
          (lowerList (all_paths.getD ((start + i) % all_paths.length) "").data)
          = true
    · rw [if_pos hm] at h
      exact Option.noConfusion h
    · rw [if_neg hm] at h
      cases j with
      | zero =>
        simpa using Bool.eq_false_iff.mpr hm
      | succ j =>
        have hj2 := ih (i + 1) h j (by omega)
        have harg : start + (i + 1) + j = start + i + (j + 1) := by omega
        rwa [harg] at hj2

/-- Scanning a full cycle from any start position visits every index:
for each `k < len` some loop iteration `j < len` lands on it. -/
theorem rotation_hit (len start k : Nat) (hlen : 0 < len) (hk : k < len) :
    ∃ j, j < len ∧ (start + j) % len = k := by
  have hs : start % len < len := Nat.mod_lt _ hlen
  by_cases hle : start % len ≤ k
  · refine ⟨k - start % len, by omega, ?_⟩
    rw [Nat.add_mod]
    have h2 : (k - start % len) % len = k - start % len := Nat.mod_eq_of_lt (by omega)
    rw [h2]
    have h3 : start % len + (k - start % len) = k := by omega
    rw [h3]
    exact Nat.mod_eq_of_lt hk
  · refine ⟨len + k - start % len, by omega, ?_⟩
    rw [Nat.add_mod]
    have h2 : (len + k - start % len) % len = len + k - start % len :=
      Nat.mod_eq_of_lt (by omega)
    rw [h2]
    have h3 : start % len + (len + k - start % len) = len + k := by omega
    rw [h3]
    rw [Nat.add_mod_left]
    exact Nat.mod_eq_of_lt hk

/-- Counterexample to C8 as stated: with cached paths `["/suite/task1"]`
and query `"POST"`, the miss notification quotes the lower-cased query
`'post'`, not the query text `'POST'` the claim's message format says. -/
theorem find_and_select_message_counterexample :
    findAndSelectLogic ["/suite/task1"] none "POST" =
      SearchResult.notifyNoMatch "No match found for 'post'" ∧
    findAndSelectLogic ["/suite/task1"] none "POST" ≠
      SearchResult.notifyNoMatch "No match found for 'POST'" := by
  exact ⟨by decide, by decide⟩

/-- C8 (amended).  The search scans the cached flat path list
case-insensitively, starting just after the cursor's path and wrapping so
every entry is examined: with rows `[/suite/task1, /suite/post_proc]` and
the cursor on the last entry, `"post"` still selects `/suite/post_proc`;
whenever any cached path contains the query (case-insensitively) a
matching path is selected; when none does, it notifies
`"No match found for '<query lower-cased>'"`. -/
theorem find_and_select_wraparound :
    findAndSelectLogic ["/suite/task1", "/suite/post_proc"]
      (some "/suite/post_proc") "post" = SearchResult.select "/suite/post_proc" ∧
    findAndSelectLogic ["/suite/task1", "/suite/post_proc"]
      (some "/suite/task1") "post" = SearchResult.select "/suite/post_proc" ∧
    (∀ (paths : List String) (cursor : Option String) (q : String),
      (∃ p ∈ paths, hasSub (lowerList q.data) (lowerList p.data) = true) →
      ∃ p, findAndSelectLogic paths cursor q = SearchResult.select p ∧
        p ∈ paths ∧ hasSub (lowerList q.data) (lowerList p.data) = true) ∧
    (∀ (paths : List String) (cursor : Option String) (q : String),
      (∀ p ∈ paths, hasSub (lowerList q.data) (lowerList p.data) = false) →
      findAndSelectLogic paths cursor q =
        SearchResult.notifyNoMatch
          ("No match found for '" ++ String.mk (lowerList q.data) ++ "'")) := by
  refine ⟨by decide, by decide, ?_, ?_⟩
  · intro paths cursor q hex
    obtain ⟨p, hp, hmatch⟩ := hex
    have hlen : 0 < paths.length := List.length_pos.mpr (List.ne_nil_of_mem hp)
    unfold findAndSelectLogic
    set start :=
      match cursor with
      | none => 0
      | some cp => if cp ≠ "" ∧ cp ∈ paths then paths.indexOf cp + 1 else 0
      with hstart
    cases hscan : scanAux paths (lowerList q.data) start 0 paths.length with
    | some found =>
      have h := scanAux_some paths (lowerList q.data) start hlen _ _ _ hscan
      exact ⟨found, by simp [hscan], h.1, h.2⟩
    | none =>
      exfalso
      obtain ⟨k, hk, hgetk⟩ := List.getElem_of_mem hp
      have hnone := scanAux_none paths (lowerList q.data) start _ _ hscan
      obtain ⟨j, hj, hjk⟩ := rotation_hit paths.length start k hlen hk
      have hmiss := hnone j hj
      have harg : start + 0 + j = start + j := by omega
      rw [harg, hjk] at hmiss
      have hgd : paths.getD k "" = p := by
        rw [List.getD_eq_getElem?_getD, List.getElem?_eq_getElem hk]
        exact hgetk
      rw [hgd] at hmiss
      rw [hmatch] at hmiss
      simp at hmiss
  · intro paths cursor q hall
    unfold findAndSelectLogic
    set start :=
      match cursor with
      | none => 0
      | some cp => if cp ≠ "" ∧ cp ∈ paths then paths.indexOf cp + 1 else 0
      with hstart
    cases hscan : scanAux paths (lowerList q.data) start 0 paths.length with
    | some found =>
      exfalso
      have hlen : 0 < paths.length := by
        by_contra hle
        have h0 : paths.length = 0 := by omega
        rw [h0] at hscan
        simp [scanAux] at hscan
      have h := scanAux_some paths (lowerList q.data) start hlen _ _ _ hscan
      have := hall found h.1
      rw [h.2] at this
      simp at this
    | none => simp [hscan]

/-- Witness for C8 (amended): the no-match and completeness conjuncts
applied at concrete caches and queries. -/
theorem find_and_select_wraparound_witness :
    findAndSelectLogic ["/suite/task1"] none "zzz" =
      SearchResult.notifyNoMatch
        ("No match found for '" ++ String.mk (lowerList "zzz".data) ++ "'") ∧
    (∃ p, findAndSelectLogic ["/suite/task1"] none "task" =
        SearchResult.select p ∧ p ∈ ["/suite/task1"] ∧
        hasSub (lowerList "task".data) (lowerList p.data) = true) :=
  ⟨find_and_select_wraparound.2.2.2 ["/suite/task1"] none "zzz" (by decide),
   find_and_select_wraparound.2.2.1 ["/suite/task1"] none "task"
     ⟨"/suite/task1", by decide, by decide⟩⟩

/-! ## Why inspector expression parser
(`src/ectop/widgets/modals/why.py`, `WhyInspector._parse_expression`)

The parser walks a trigger/complete condition string: it strips
whitespace, repeatedly removes fully-wrapping outer parentheses (verified
by a depth scan over the whole string), splits at a depth-0 `" or "`
before ever considering `" and "`, and otherwise renders a leaf by
matching the path-comparison regex against the text and evaluating
`==`/`!=` against the snapshot.  The snapshot (`defs.find_abs_node` +
`get_state`) is modelled as an association list from absolute path to
state string. -/

/-- Python `str.strip`'s whitespace set. -/
def pyIsSpace (c : Char) : Bool :=
  c == ' ' || c == '\t' || c == '\n' || c == '\r' || c.toNat == 11 || c.toNat == 12

/-- Python `str.strip()`. -/
def pyStrip (cs : List Char) : List Char :=
  ((cs.dropWhile pyIsSpace).reverse.dropWhile pyIsSpace).reverse

/-- The `is_pair` depth scan: walking the whole string, updating the
bracket depth per character and failing as soon as depth 0 is reached
before the final index. -/
def pairScan : List Char → Nat → Nat → Int → Bool
  | [], _, _, _ => true
  | c :: rest, i, total, depth =>
    let d := if c == '(' then depth + 1 else if c == ')' then depth - 1 else depth
    if d == 0 && decide (i < total - 1) then false
    else pairScan rest (i + 1) total d

/-- Do the outer parentheses wrap the entire string? -/
def isWholePair (cs : List Char) : Bool :=
  pairScan cs 0 cs.length 0

/-- The outer-parenthesis strip loop; each pass removes the outer pair and
re-strips, so the string's length bounds the iterations (`fuel`). -/
def stripOuterParens : Nat → List Char → List Char
  | 0, cs => cs
  | fuel + 1, cs =>
    if listStarts "(".data cs && listEnds ")".data cs then
      if isWholePair cs then stripOuterParens fuel (pyStrip ((cs.drop 1).dropLast))
      else cs
    else cs

/-- Scan for the literal token `op` at bracket depth 0, returning the text
before it and the text after it. -/
def findTopSplit (op : List Char) :
    List Char → Int → List Char → Option (List Char × List Char)
  | _, _, [] => none
  | pre, depth, c :: rest =>
    if c == '(' then findTopSplit op (pre ++ [c]) (depth + 1) rest
    else if c == ')' then findTopSplit op (pre ++ [c]) (depth - 1) rest
    else if depth == 0 && listStarts op (c :: rest) then
      some (pre, (c :: rest).drop op.length)
    else findTopSplit op (pre ++ [c]) depth rest

/-- The regex path character class `[a-zA-Z0-9_/]` (note: no `-`, no `.`). -/
def isPathChar (c : Char) : Bool :=
  (decide ('a' ≤ c) && decide (c ≤ 'z')) || (decide ('A' ≤ c) && decide (c ≤ 'Z')) ||
    (decide ('0' ≤ c) && decide (c ≤ '9')) || c == '_' || c == '/'

/-- The regex word class (ASCII fragment, which is all the repository
feeds it). -/
def isWordChar (c : Char) : Bool :=
  (decide ('a' ≤ c) && decide (c ≤ 'z')) || (decide ('A' ≤ c) && decide (c ≤ 'Z')) ||
    (decide ('0' ≤ c) && decide (c ≤ '9')) || c == '_'

/-- The comparison-operator alternation, tried in pattern order with
backtracking to the next alternative when the following word fails. -/
def tryOps : List (List Char) → List Char → Option (List Char × List Char)
  | [], _ => none
  | op :: ops, s =>
    if listStarts op s then
      let after := (s.drop op.length).dropWhile pyIsSpace
      let w := after.takeWhile isWordChar
      if w ≠ [] then some (op, w) else tryOps ops s
    else tryOps ops s

/-- The optional comparison group after the path: optional whitespace, an
operator, optional whitespace, a word. -/
def matchOptGroup (s : List Char) : Option (List Char × List Char) :=
  tryOps ["==".data, "!=".data, "<=".data, ">=".data, "<".data, ">".data]
    (s.dropWhile pyIsSpace)

/-- The regex search of the leaf pattern: the leftmost `/` followed by at
least one path character matches; the path is the maximal run of path
characters, then the optional comparison group is tried. -/
def findPathMatch : List Char → Option (List Char × Option (List Char × List Char))
  | [] => none
  | c :: rest =>
    if c == '/' && rest.takeWhile isPathChar ≠ [] then
      some ('/' :: rest.takeWhile isPathChar,
        matchOptGroup (rest.drop (rest.takeWhile isPathChar).length))
    else findPathMatch rest

/-- `defs.find_abs_node(path)` followed by the node's state string. -/
def lookupState (defs : List (String × String)) (path : String) : Option String :=
  (defs.find? (fun pr => pr.1 == path)).map (fun pr => pr.2)

/-- The display tree the parser builds: internal AND/OR nodes and leaves
with an optional clickable path payload. -/
inductive ExprTree where
  | opNode (label : String) (children : List ExprTree)
  | leafNode (label : String) (data : Option String)

/-- The leaf branch of `_parse_expression`: match the path pattern,
default the operator to `==` and the expected state to `complete`, look
the path up in the snapshot and evaluate `==`/`!=` for the met icon. -/
def renderLeaf (defs : List (String × String)) (cs : List Char) : ExprTree :=
  match findPathMatch cs with
  | some pm =>
    let path := String.mk pm.1
    let op := match pm.2 with | some og => String.mk og.1 | none => "=="
    let expected := match pm.2 with | some og => String.mk og.2 | none => "complete"
    match lookupState defs path with
    | some actual =>
      let is_met :=
        if op == "==" then actual == expected
        else if op == "!=" then actual != expected
        else false
      let icon := if is_met then ICON_MET else ICON_NOT_MET
      ExprTree.leafNode
        (icon ++ " " ++ path ++ " " ++ op ++ " " ++ actual ++ " (Expected: " ++
          expected ++ ")") (some path)
    | none =>
      ExprTree.leafNode (ICON_UNKNOWN ++ " " ++ path ++ " (Not found)") none
  | none => ExprTree.leafNode (ICON_NOTE ++ " " ++ String.mk cs) none

/-- `WhyInspector._parse_expression`, returning the list of children added
under the given parent (empty for blank input, a single node otherwise).
`fuel` bounds the recursion depth; every recursive call is on a strictly
shorter string, so any fuel above the input length is enough. -/
def parseExpression (defs : List (String × String)) :
    Nat → List Char → List ExprTree
  | 0, _ => []
  | fuel + 1, raw =>
    let s := pyStrip raw
    if s = [] then []
    else
      let t := stripOuterParens (s.length + 1) s
      match findTopSplit " or ".data [] 0 t with
      | some lr =>
          [ExprTree.opNode EXPR_OR_LABEL
            (parseExpression defs fuel lr.1 ++ parseExpression defs fuel lr.2)]
      | none =>
        match findTopSplit " and ".data [] 0 t with
        | some lr =>
            [ExprTree.opNode EXPR_AND_LABEL
              (parseExpression defs fuel lr.1 ++ parseExpression defs fuel lr.2)]
        | none => [renderLeaf defs t]

/-! How many operator nodes in a tree / forest carry the given label. -/

mutual

def countLabel : String → ExprTree → Nat
  | lbl, ExprTree.opNode l cs => (if l == lbl then 1 else 0) + countLabelList lbl cs
  | _, ExprTree.leafNode _ _ => 0

def countLabelList : String → List ExprTree → Nat
  | _, [] => 0
  | lbl, t :: ts => countLabel lbl t + countLabelList lbl ts

end

/-- C4 (code evaluated at the failing input).  The leaf regex's path class
`[a-zA-Z0-9_/]` has no `-` or `.`, so parsing
`"/suite/test-node.1 == complete"` truncates the path to `/suite/test`,
finds no node there, and yields the unknown-icon "(Not found)" leaf — not
the met-icon (or, for an aborted state, not-met-icon) leaf containing the
full literal path that the claim describes. -/
theorem expression_leaf_truncation :
    parseExpression [("/suite/test-node.1", "complete")] 40
      "/suite/test-node.1 == complete".data =
      [ExprTree.leafNode "❓ /suite/test (Not found)" none] ∧
    parseExpression [("/suite/test-node.1", "aborted")] 40
      "/suite/test-node.1 == complete".data =
      [ExprTree.leafNode "❓ /suite/test (Not found)" none] ∧
    hasSub "/suite/test-node.1".data "❓ /suite/test (Not found)".data = false ∧
    hasSub ICON_MET.data "❓ /suite/test (Not found)".data = false ∧
    hasSub ICON_NOT_MET.data "❓ /suite/test (Not found)".data = false := by
  exact ⟨rfl, rfl, by decide, by decide, by decide⟩

/-- C6.  Parsing
`"(/a == complete) and ((/b == active) or (/a == complete))"` produces
exactly one AND node, whose children are the left leaf and exactly one OR
node (which holds the two right leaves): the depth tracking refuses to
strip the outermost parentheses, no `" or "` exists at depth 0, so the
top split is the `" and "`, and the OR split happens inside the right
half. -/
theorem expression_nesting :
    parseExpression [("/a", "complete"), ("/b", "active")] 100
      "(/a == complete) and ((/b == active) or (/a == complete))".data =
      [ExprTree.opNode EXPR_AND_LABEL
        [ExprTree.leafNode "✅ /a == complete (Expected: complete)" (some "/a"),
         ExprTree.opNode EXPR_OR_LABEL
           [ExprTree.leafNode "✅ /b == active (Expected: active)" (some "/b"),
            ExprTree.leafNode "✅ /a == complete (Expected: complete)"
              (some "/a")]]] ∧
    countLabelList EXPR_AND_LABEL
      (parseExpression [("/a", "complete"), ("/b", "active")] 100
        "(/a == complete) and ((/b == active) or (/a == complete))".data) = 1 ∧
    countLabelList EXPR_OR_LABEL
      (parseExpression [("/a", "complete"), ("/b", "active")] 100
        "(/a == complete) and ((/b == active) or (/a == complete))".data) = 1 := by
  exact ⟨rfl, rfl, rfl⟩

/-! ## Variable Tweaker (`src/ectop/widgets/modals/variables.py`)

`refresh_vars` builds the table rows: one row per own variable (type
`"User"`, keyed by the bare name), one per generated variable (type
`"Generated"`), then climbs the parent chain adding, for each ancestor
variable whose name is not in the seen-set, a row typed
`"Inherited (<ancestor name>)"` keyed `inh_<name>`.  Row selection and
deletion reject `inh_`-prefixed keys without calling `alter`. -/

structure EVar where
  name : String
  value : String
deriving DecidableEq

structure Ancestor where
  name : String
  vars : List EVar
deriving DecidableEq

structure VarRow where
  name : String
  value : String
  vtype : String
  key : String
deriving DecidableEq

def userRow (v : EVar) : VarRow :=
  ⟨v.name, v.value, "User", v.name⟩

def genRow (v : EVar) : VarRow :=
  ⟨v.name, v.value, "Generated", v.name⟩

def inhRow (aname : String) (v : EVar) : VarRow :=
  ⟨v.name, v.value, "Inherited (" ++ aname ++ ")", "inh_" ++ v.name⟩

/-- The inner loop over one ancestor's variables: emit a row for each name
not yet seen, extending the seen-set. -/
def inhVarsLoop (aname : String) : List String → List EVar → List VarRow × List String
  | seen, [] => ([], seen)
  | seen, v :: vs =>
    if v.name ∈ seen then inhVarsLoop aname seen vs
    else
      let rest := inhVarsLoop aname (v.name :: seen) vs
      (inhRow aname v :: rest.1, rest.2)

/-- The `while parent:` climb over the ancestor chain (nearest first). -/
def inhRows : List String → List Ancestor → List VarRow
  | _, [] => []
  | seen, a :: rest =>
    let pr := inhVarsLoop a.name seen a.vars
    pr.1 ++ inhRows pr.2 rest

/-- `VariableTweaker.refresh_vars`: the rows added to the table, in order.
The seen-set entering the inherited climb holds every own and generated
name. -/
def refresh_vars (own gen : List EVar) (ancestors : List Ancestor) : List VarRow :=
  own.map userRow ++ gen.map genRow ++
    inhRows (own.map EVar.name ++ gen.map EVar.name) ancestors

/-- The nearest ancestor defining `name`, with that ancestor's name and
the variable's value. -/
def firstDef (name : String) : List Ancestor → Option (String × String)
  | [] => none
  | a :: rest =>
    match a.vars.find? (fun v => v.name == name) with
    | some v => some (a.name, v.value)
    | none => firstDef name rest

/-- What selecting a table row does: warn (and keep the edit input closed)
for an inherited key, otherwise open the edit input on that key. -/
inductive TweakerEffect where
  | warned (msg : String) : TweakerEffect
  | openedInput (selected : String) : TweakerEffect
deriving DecidableEq

/-- `VariableTweaker.on_data_table_row_selected`. -/
def on_data_table_row_selected (row_key : String) : TweakerEffect :=
  if listStarts INHERITED_VAR_PREFIX.data row_key.data then
    TweakerEffect.warned
      "Cannot edit inherited variables directly. Add it to this node to override."
  else TweakerEffect.openedInput row_key

structure AlterCall where
  path : String
  alter_type : String
  name : String
  value : String
deriving DecidableEq

/-- `VariableTweaker.action_delete_variable` on the selected row's key:
the `alter` calls issued and the notification shown. -/
def action_delete_variable (node_path row_key : String) :
    List AlterCall × Option String :=
  if listStarts INHERITED_VAR_PREFIX.data row_key.data then
    ([], some "Cannot delete inherited variables")
  else if row_key ≠ "" then
    ([⟨node_path, "delete_variable", row_key, ""⟩], some ("Deleted " ++ row_key))
  else ([], none)

/-- String append is left-cancellative. -/
theorem string_append_left_cancel (p a b : String) (h : p ++ a = p ++ b) :
    a = b := by
  have hd : (p ++ a).data = (p ++ b).data := congrArg String.data h
  rw [string_data_append, string_data_append] at hd
  have hab := List.append_cancel_left hd
  cases a with
  | mk da =>
    cases b with
    | mk db => exact congrArg String.mk hab

/-- Two prefixed keys agree exactly when the bare names do. -/
theorem inh_key_beq (a b : String) :
    (("inh_" ++ a : String) == "inh_" ++ b) = (a == b) := by
  by_cases h : a = b
  · simp [h]
  · have hne : ("inh_" ++ a : String) ≠ "inh_" ++ b := fun hc =>
      h (string_append_left_cancel _ _ _ hc)
    simp [h, hne]

/-- Membership in the seen-set coming out of the inner loop. -/
theorem inhVarsLoop_seen_mem (aname x : String) :
    ∀ (vars : List EVar) (seen : List String),
      (x ∈ (inhVarsLoop aname seen vars).2 ↔
        x ∈ seen ∨ x ∈ vars.map EVar.name) := by
  intro vars
  induction vars with
  | nil => intro seen; simp [inhVarsLoop]
  | cons v vs ih =>
    intro seen
    by_cases hv : v.name ∈ seen
    · rw [inhVarsLoop, if_pos hv]
      rw [ih seen]
      simp only [List.map_cons, List.mem_cons]
      constructor
      · rintro (h | h)
        · exact Or.inl h
        · exact Or.inr (Or.inr h)
      · rintro (h | h | h)
        · exact Or.inl h
        · exact Or.inl (h ▸ hv)
        · exact Or.inr h
    · rw [inhVarsLoop, if_neg hv]
      show x ∈ (inhVarsLoop aname (v.name :: seen) vs).2 ↔ _
      rw [ih (v.name :: seen)]
      simp only [List.mem_cons, List.map_cons]
      tauto

/-- Filtering the inner loop's rows for one prefixed key: nothing when the
name was already seen, else exactly the row of the first defining
variable. -/
theorem inhVarsLoop_filter (aname name : String) :
    ∀ (vars : List EVar) (seen : List String),
      ((inhVarsLoop aname seen vars).1.filter
          (fun r => r.key == "inh_" ++ name)) =
        (if name ∈ seen then []
         else
           match vars.find? (fun v => v.name == name) with
           | some v => [inhRow aname v]
           | none => []) := by
  intro vars
  induction vars with
  | nil =>
    intro seen
    by_cases h : name ∈ seen <;> simp [inhVarsLoop, h, List.find?]
  | cons v vs ih =>
    intro seen
    by_cases hv : v.name ∈ seen
    · rw [inhVarsLoop, if_pos hv, ih seen]
      by_cases hn : (v.name == name) = true
      · have heq : v.name = name := by simpa using hn
        have hns : name ∈ seen := heq ▸ hv
        simp [List.find?, hn, hns]
      · simp only [List.find?, hn]
    · rw [inhVarsLoop, if_neg hv]
      show (inhRow aname v :: (inhVarsLoop aname (v.name :: seen) vs).1).filter
          (fun r => r.key == "inh_" ++ name) = _
      rw [List.filter_cons]
      have hkey : ((inhRow aname v).key == "inh_" ++ name) = (v.name == name) := by
        show (("inh_" ++ v.name : String) == "inh_" ++ name) = _
        exact inh_key_beq v.name name
      rw [hkey, ih (v.name :: seen)]
      by_cases hn : (v.name == name) = true
      · have heq : v.name = name := by simpa using hn
        have hmem : name ∈ v.name :: seen := by simp [heq]
        have hns : name ∉ seen := by rw [heq] at hv; exact hv
        simp [List.find?, hn, hmem, hns]
      · have heq : v.name ≠ name := by simpa using hn
        have hmem : (name ∈ v.name :: seen) ↔ name ∈ seen := by
          simp [List.mem_cons]
          intro hc
          exact absurd hc.symm heq
        simp only [List.find?, hn, Bool.false_eq_true, if_false]
        by_cases hs : name ∈ seen
        · simp [hs, hmem.mpr hs]
        · have : name ∉ v.name :: seen := fun hc => hs (hmem.mp hc)
          simp [hs, this]

/-- Filtering the whole inherited climb for one prefixed key: empty when
the name is already seen; otherwise exactly one row, carrying the nearest
defining ancestor's name and value. -/
theorem inhRows_filter (name : String) :
    ∀ (chain : List Ancestor) (seen : List String),
      ((inhRows seen chain).filter (fun r => r.key == "inh_" ++ name)) =
        (if name ∈ seen then []
         else
           match firstDef name chain with
           | some av =>
               [⟨name, av.2, "Inherited (" ++ av.1 ++ ")", "inh_" ++ name⟩]
           | none => []) := by
  intro chain
  induction chain with
  | nil =>
    intro seen
    by_cases h : name ∈ seen <;> simp [inhRows, firstDef, h]
  | cons a rest ih =>
    intro seen
    rw [inhRows]
    rw [List.filter_append]
    rw [inhVarsLoop_filter a.name name a.vars seen]
    rw [ih (inhVarsLoop a.name seen a.vars).2]
    by_cases hs : name ∈ seen
    · have hs2 : name ∈ (inhVarsLoop a.name seen a.vars).2 :=
        (inhVarsLoop_seen_mem a.name name a.vars seen).mpr (Or.inl hs)
      simp [hs, hs2]
    · cases hfind : a.vars.find? (fun v => v.name == name) with
      | some v =>
        have hpv := List.find?_some hfind
        have hveq : v.name = name := by simpa using hpv
        have hmemv : v ∈ a.vars := List.mem_of_find?_eq_some hfind
        have hs2 : name ∈ (inhVarsLoop a.name seen a.vars).2 :=
          (inhVarsLoop_seen_mem a.name name a.vars seen).mpr
            (Or.inr (hveq ▸ List.mem_map_of_mem EVar.name hmemv))
        rw [firstDef]
        rw [hfind]
        simp only [hs, if_false, hs2, if_true]
        rw [List.append_nil]
        show [inhRow a.name v] = _
        rw [inhRow, hveq]
      | none =>
        have hnone : ∀ v ∈ a.vars, ¬ ((fun v => v.name == name) v = true) :=
          List.find?_eq_none.mp hfind
        have hs2 : name ∉ (inhVarsLoop a.name seen a.vars).2 := by
          rw [inhVarsLoop_seen_mem a.name name a.vars seen]
          rintro (h | h)
          · exact hs h
          · obtain ⟨v, hv, hvn⟩ := List.mem_map.mp h
            exact hnone v hv (by simp [hvn])
        rw [firstDef]
        rw [hfind]
        simp only [hs, if_false, hs2]
        simp

/-- Every row emitted by the inner loop carries this ancestor's
`"Inherited (...)"` type. -/
theorem inhVarsLoop_vtype (aname : String) :
    ∀ (vars : List EVar) (seen : List String) (r : VarRow),
      r ∈ (inhVarsLoop aname seen vars).1 →
      r.vtype = "Inherited (" ++ aname ++ ")" := by
  intro vars
  induction vars with
  | nil => intro seen r h; simp [inhVarsLoop] at h
  | cons v vs ih =>
    intro seen r h
    by_cases hv : v.name ∈ seen
    · rw [inhVarsLoop, if_pos hv] at h
      exact ih seen r h
    · rw [inhVarsLoop, if_neg hv] at h
      rcases List.mem_cons.mp h with h1 | h1
      · rw [h1]; rfl
      · exact ih (v.name :: seen) r h1

/-- Every row of the inherited climb carries some ancestor's
`"Inherited (...)"` type. -/
theorem inhRows_vtype :
    ∀ (chain : List Ancestor) (seen : List String) (r : VarRow),
      r ∈ inhRows seen chain →
      ∃ an, r.vtype = "Inherited (" ++ an ++ ")" := by
  intro chain
  induction chain with
  | nil => intro seen r h; simp [inhRows] at h
  | cons a rest ih =>
    intro seen r h
    rw [inhRows] at h
    rcases List.mem_append.mp h with h1 | h1
    · exact ⟨a.name, inhVarsLoop_vtype a.name a.vars seen r h1⟩
    · exact ih _ r h1

/-- An `Inherited (...)` type string never equals `"User"` or
`"Generated"` (the lengths already differ). -/
theorem inherited_vtype_ne (an : String) :
    (("Inherited (" ++ an ++ ")" : String) == "User") = false ∧
    (("Inherited (" ++ an ++ ")" : String) == "Generated") = false := by
  constructor
  · apply beq_eq_false_iff_ne.mpr
    intro h
    have hd := congrArg (fun s => s.data.length) h
    simp [string_data_append] at hd
  · apply beq_eq_false_iff_ne.mpr
    intro h
    have hd := congrArg (fun s => s.data.length) h
    simp [string_data_append] at hd

/-- C5.  The refreshed table is exactly: the own variables as `"User"`
rows keyed by bare name, the generated variables as `"Generated"` rows
keyed by bare name, and then the inherited climb, in which a name not
shadowed by the own/generated seen-set produces exactly one
`inh_`-prefixed row taken from the nearest defining ancestor (a more
distant ancestor's same-named variable is suppressed); and selecting or
deleting any `inh_`-prefixed key is rejected with a warning/error,
opening no edit input and issuing zero `alter` calls. -/
theorem variable_inheritance_shadowing :
    (∀ (own gen : List EVar) (ancestors : List Ancestor),
      refresh_vars own gen ancestors =
        own.map userRow ++ gen.map genRow ++
          inhRows (own.map EVar.name ++ gen.map EVar.name) ancestors) ∧
    (∀ (own gen : List EVar) (ancestors : List Ancestor),
      (refresh_vars own gen ancestors).filter (fun r => r.vtype == "User") =
        own.map userRow ∧
      (refresh_vars own gen ancestors).filter (fun r => r.vtype == "Generated") =
        gen.map genRow) ∧
    (∀ (ancestors : List Ancestor) (seen : List String) (name : String),
      name ∉ seen →
      (inhRows seen ancestors).filter (fun r => r.key == "inh_" ++ name) =
        (match firstDef name ancestors with
         | some av =>
             [⟨name, av.2, "Inherited (" ++ av.1 ++ ")", "inh_" ++ name⟩]
         | none => [])) ∧
    (∀ row_key : String,
      listStarts INHERITED_VAR_PREFIX.data row_key.data = true →
      on_data_table_row_selected row_key =
        TweakerEffect.warned
          "Cannot edit inherited variables directly. Add it to this node to override." ∧
      (∀ sel, on_data_table_row_selected row_key ≠ TweakerEffect.openedInput sel)) ∧
    (∀ (path row_key : String),
      listStarts INHERITED_VAR_PREFIX.data row_key.data = true →
      action_delete_variable path row_key =
        ([], some "Cannot delete inherited variables")) := by
  refine ⟨fun own gen ancestors => rfl, ?_, ?_, ?_, ?_⟩
  · intro own gen ancestors
    constructor
    · rw [refresh_vars, List.filter_append, List.filter_append]
      have h1 : (own.map userRow).filter (fun r => r.vtype == "User") =
          own.map userRow := by
        apply List.filter_eq_self.mpr
        intro r hr
        obtain ⟨v, hv, hveq⟩ := List.mem_map.mp hr
        rw [← hveq]
        rfl
      have h2 : (gen.map genRow).filter (fun r => r.vtype == "User") = [] := by
        apply List.filter_eq_nil_iff.mpr
        intro r hr
        obtain ⟨v, hv, hveq⟩ := List.mem_map.mp hr
        rw [← hveq]
        simp [genRow]
      have h3 : (inhRows (own.map EVar.name ++ gen.map EVar.name) ancestors).filter
          (fun r => r.vtype == "User") = [] := by
        apply List.filter_eq_nil_iff.mpr
        intro r hr
        obtain ⟨an, han⟩ := inhRows_vtype ancestors _ r hr
        simp only [han]
        simp [(inherited_vtype_ne an).1]
      rw [h1, h2, h3, List.append_nil, List.append_nil]
    · rw [refresh_vars, List.filter_append, List.filter_append]
      have h1 : (own.map userRow).filter (fun r => r.vtype == "Generated") = [] := by
        apply List.filter_eq_nil_iff.mpr
        intro r hr
        obtain ⟨v, hv, hveq⟩ := List.mem_map.mp hr
        rw [← hveq]
        simp [userRow]
      have h2 : (gen.map genRow).filter (fun r => r.vtype == "Generated") =
          gen.map genRow := by
        apply List.filter_eq_self.mpr
        intro r hr
        obtain ⟨v, hv, hveq⟩ := List.mem_map.mp hr
        rw [← hveq]
        rfl
      have h3 : (inhRows (own.map EVar.name ++ gen.map EVar.name) ancestors).filter
          (fun r => r.vtype == "Generated") = [] := by
        apply List.filter_eq_nil_iff.mpr
        intro r hr
        obtain ⟨an, han⟩ := inhRows_vtype ancestors _ r hr
        simp only [han]
        simp [(inherited_vtype_ne an).2]
      rw [h1, h2, h3, List.append_nil]
      rfl
  · intro ancestors seen name hns
    rw [inhRows_filter name ancestors seen]
    simp [hns]
  · intro row_key hpre
    rw [on_data_table_row_selected, if_pos hpre]
    exact ⟨rfl, fun sel h => TweakerEffect.noConfusion h⟩
  · intro path row_key hpre
    rw [action_delete_variable, if_pos hpre]

/-- Witness for C5: a task with no own or generated variables under a
parent family defining `F_VAR = F_VAL` yields exactly the single row
`("F_VAR", "F_VAL", "Inherited (family)", "inh_F_VAR")`, and editing or
deleting `inh_F_VAR` is rejected. -/
theorem variable_inheritance_shadowing_witness :
    (inhRows [] [⟨"family", [⟨"F_VAR", "F_VAL"⟩]⟩]).filter
        (fun r => r.key == "inh_" ++ "F_VAR") =
      [⟨"F_VAR", "F_VAL", "Inherited (" ++ "family" ++ ")", "inh_" ++ "F_VAR"⟩] ∧
    on_data_table_row_selected "inh_F_VAR" =
      TweakerEffect.warned
        "Cannot edit inherited variables directly. Add it to this node to override." ∧
    action_delete_variable "/s/f/task" "inh_F_VAR" =
      ([], some "Cannot delete inherited variables") :=
  ⟨variable_inheritance_shadowing.2.2.1 [⟨"family", [⟨"F_VAR", "F_VAL"⟩]⟩] []
      "F_VAR" (by decide),
   (variable_inheritance_shadowing.2.2.2.1 "inh_F_VAR" (by decide)).1,
   variable_inheritance_shadowing.2.2.2.2 "/s/f/task" "inh_F_VAR" (by decide)⟩

end Ectop
